import Mathlib

/-!
Verification of a memcached metrics collector (`collect_mc_metrics.py`).

The development shallowly embeds the program:

* `MC.Stats` — the raw stats dictionary, an insertion-ordered association
  list from stat name to its numeric value.  The Python code stores the
  values as decimal strings and converts with `float()` / `str()` at every
  use; we model a numeric-string value by the rational it denotes (the
  claims only involve values such as `50`, `75`, `0` on which Python float
  arithmetic is exact).
* `MC.wrap_stats` — the normalizer (source lines 108-139).  Python mutates
  the dict in place inside `try ... except KeyError ... finally: return
  stats`; a `return` in `finally` also swallows an in-flight
  `ZeroDivisionError`.  Every exceptional exit therefore returns the map as
  mutated so far, which the embedding makes explicit.
* string scanners for the three compiled patterns (`_stat_regex`,
  `_slab_regex`, `_key_regex`) with Python `re.findall` semantics:
  leftmost, non-overlapping matches, greedy groups with backtracking, `.`
  matching every character except a newline.
* `MC.collect_instances` — the per-port loop (source lines 142-210),
  parameterized by the externally supplied port set and by the outcome of
  the per-port network interaction (`fetch`).
-/

set_option linter.unusedVariables false

namespace MC

/-! ## The stats dictionary -/

/-- RawStats / normalized stats: stat name to numeric value, in insertion
order, keys unique (a Python `dict`). -/
abbrev Stats := List (String × ℚ)

/-- Dictionary lookup `m[k]`: the value at the first matching key. -/
def lookupV : Stats → String → Option ℚ
  | [], _ => none
  | (k, v) :: t, key => if k = key then some v else lookupV t key

/-- Dictionary deletion `del m[k]` (the success case). -/
def eraseKey (m : Stats) (key : String) : Stats :=
  m.filter (fun p => p.1 != key)

/-- Dictionary assignment `m[k] = v`: replaces the value in place when the
key exists, otherwise appends (Python dict insertion-order semantics). -/
def setVal : Stats → String → ℚ → Stats
  | [], key, v => [(key, v)]
  | (k, w) :: t, key, v =>
    if k = key then (key, v) :: t else (k, w) :: setVal t key v

/-- Keys of the dictionary, in insertion order. -/
def keysOf (m : Stats) : List String := m.map Prod.fst

/-! ## The normalizer `wrap_stats` (source lines 108-139) -/

/-- One hit-ratio step of `wrap_stats` (lines 114-133): for pair name `p`,
computes `100 * hits / (hits + misses)` into key `p ++ "_hit_ratio"`,
`ZeroDivisionError` caught and replaced by the literal `0.0`.  A missing
`p_hits` / `p_misses` key is a `KeyError`, which the inner `except
ZeroDivisionError` does not catch: it aborts the remaining steps
(modelled by `none`). -/
def ratioStep (p : String) (m : Stats) : Option Stats :=
  match lookupV m (p ++ "_hits"), lookupV m (p ++ "_misses") with
  | some h, some mi =>
    some (setVal m (p ++ "_hit_ratio") (if h + mi = 0 then 0 else 100 * h / (h + mi)))
  | _, _ => none

/-- The chain of the four hit-ratio computations.  When a step raises
`KeyError` the outer handler logs it and `finally: return stats` returns
the map mutated so far. -/
def ratioTail (m3 : Stats) : Stats :=
  match ratioStep "get" m3 with
  | none => m3
  | some m4 =>
    match ratioStep "incr" m4 with
    | none => m4
    | some m5 =>
      match ratioStep "decr" m5 with
      | none => m5
      | some m6 =>
        match ratioStep "delete" m6 with
        | none => m6
        | some m7 => m7

/-- Translation of `wrap_stats` (lines 108-139).  Control flow of the
source: `del stats['pid']`, `del stats['time']`, the `usage` computation
and the four ratio steps run in order inside `try`; a `KeyError` from a
missing key jumps to the `except KeyError` logger, and `finally: return
stats` returns the dict in whatever state it was mutated to — including
when an uncaught `ZeroDivisionError` from `limit_maxbytes = 0` is in
flight (a `return` in `finally` discards the exception). -/
def wrap_stats (stats : Stats) : Stats :=
  match lookupV stats "pid" with
  | none => stats                          -- KeyError from del stats['pid']
  | some _ =>
    match lookupV (eraseKey stats "pid") "time" with
    | none => eraseKey stats "pid"         -- KeyError from del stats['time']
    | some _ =>
      match lookupV (eraseKey (eraseKey stats "pid") "time") "bytes",
            lookupV (eraseKey (eraseKey stats "pid") "time") "limit_maxbytes" with
      | some b, some l =>
        if l = 0 then                      -- ZeroDivisionError, swallowed by finally
          eraseKey (eraseKey stats "pid") "time"
        else
          ratioTail (setVal (eraseKey (eraseKey stats "pid") "time") "usage" (100 * b / l))
      | _, _ =>                            -- KeyError from stats['bytes'] / ['limit_maxbytes']
        eraseKey (eraseKey stats "pid") "time"

/-- Derived `usage` value of a raw map, when its inputs are available
(follows the formula of line 113). -/
def usageVal (m : Stats) : Option ℚ :=
  match lookupV m "bytes", lookupV m "limit_maxbytes" with
  | some b, some l => if l = 0 then none else some (100 * b / l)
  | _, _ => none

/-- Derived hit-ratio value for pair `p`, when its inputs are available:
`100 * hits / (hits + misses)`, or the literal zero when the denominator
is zero. -/
def ratioVal (m : Stats) (p : String) : Option ℚ :=
  match lookupV m (p ++ "_hits"), lookupV m (p ++ "_misses") with
  | some h, some mi => some (if h + mi = 0 then 0 else 100 * h / (h + mi))
  | _, _ => none

/-- All source keys that the `try` block reads are present (and
`limit_maxbytes` is nonzero), so normalization runs to completion. -/
def normReadyB (m : Stats) : Bool :=
  (lookupV m "pid").isSome && (lookupV m "time").isSome &&
  (lookupV m "bytes").isSome &&
  (match lookupV m "limit_maxbytes" with
   | some l => decide (l ≠ 0)
   | none => false) &&
  (lookupV m "get_hits").isSome && (lookupV m "get_misses").isSome &&
  (lookupV m "incr_hits").isSome && (lookupV m "incr_misses").isSome &&
  (lookupV m "decr_hits").isSome && (lookupV m "decr_misses").isSome &&
  (lookupV m "delete_hits").isSome && (lookupV m "delete_misses").isSome

/-! ### Concrete sample maps used by witnesses and counterexamples -/

/-- Map with `pid`/`time` present but `bytes` (a required source key)
absent. -/
def statsPT : Stats := [("pid", 1), ("time", 2), ("get_hits", 3)]

/-- Map with `bytes = 50`, `limit_maxbytes = 100` but no `pid`/`time`. -/
def statsBL : Stats := [("bytes", 50), ("limit_maxbytes", 100)]

/-- Map containing only `time`. -/
def statsTO : Stats := [("time", 5)]

/-- Map on which the `usage` computation runs. -/
def statsU : Stats := [("pid", 1), ("time", 1), ("bytes", 50), ("limit_maxbytes", 100)]

/-- Map on which the whole normalization runs to completion
(`get` pair 3/1, `incr` pair 0/0, `decr` pair 7/0, `delete` pair 0/4). -/
def statsFull : Stats :=
  [("pid", 1), ("time", 1), ("bytes", 50), ("limit_maxbytes", 100),
   ("get_hits", 3), ("get_misses", 1), ("incr_hits", 0), ("incr_misses", 0),
   ("decr_hits", 7), ("decr_misses", 0), ("delete_hits", 0), ("delete_misses", 4)]

/-! ## Metric points and the collector (source lines 142-210) -/

/-- One open-falcon metric point, with exactly the fields built at source
lines 199-207. -/
structure MetricPoint where
  metric : String
  endpoint : String
  timestamp : Nat
  step : Nat
  value : ℚ
  counterType : String
  tags : String
deriving DecidableEq

/-- The fixed allow-list of gauge-type stat names (source lines 149-165). -/
def gauges : List String :=
  ["get_hit_ratio", "incr_hit_ratio", "decr_hit_ratio", "delete_hit_ratio",
   "usage", "curr_connections", "total_connections", "bytes", "pointer_size",
   "uptime", "limit_maxbytes", "threads", "curr_items", "total_items",
   "connection_structures"]

/-- One metric point for a normalized stat key/value (source lines
190-207): a key on the gauge allow-list keeps its name and gets type
`GAUGE`; every other key gets the `_cps` suffix and type `COUNTER`.
`metric` prefix is the fixed `"mc"`, `step` the fixed 60 seconds, `tags`
is `port=<n>`. -/
def mkPoint (host : String) (now : Nat) (port : Nat) (k : String) (v : ℚ) : MetricPoint :=
  let suffix := if k ∈ gauges then "" else "_cps"
  let vtype := if k ∈ gauges then "GAUGE" else "COUNTER"
  { metric := "mc." ++ k ++ suffix
    endpoint := host
    timestamp := now
    step := 60
    value := v
    counterType := vtype
    tags := "port=" ++ toString port }

/-- Points of one instance: one per entry of the normalized map, in
iteration order (`for key in stats`). -/
def instancePoints (host : String) (now : Nat) (port : Nat) (st : Stats) : List MetricPoint :=
  st.map (fun kv => mkPoint host now port kv.1 kv.2)

/-- Translation of `collect_instances` (lines 142-210).  `host` is
`socket.gethostname()`, `now` the single `int(time.time())` taken at entry,
`ports` the set returned by discovery (in its iteration order), and
`fetch p` the outcome of the `try` block for port `p` — constructing the
client, running `stats()` and `close()`; an `Except.error` is any exception
there (connection refused, protocol error, timeout), which the bare
`except` logs before `continue`. -/
def collect_instances (host : String) (now : Nat) (ports : List Nat)
    (fetch : Nat → Except Unit Stats) : Option (List MetricPoint) :=
  if ports.isEmpty then none          -- bare `return` when discovery found nothing
  else
    some (ports.foldl (fun data port =>
      match fetch port with
      | Except.error _ => data        -- logged, `continue`
      | Except.ok raw => data ++ instancePoints host now port (wrap_stats raw)) [])

/-- Contribution of a single port to the collected list. -/
def portPoints (host : String) (now : Nat) (fetch : Nat → Except Unit Stats)
    (port : Nat) : List MetricPoint :=
  match fetch port with
  | Except.error _ => []
  | Except.ok raw => instancePoints host now port (wrap_stats raw)

/-- Modelling of the `__main__` guard (lines 230-240): the serialized
payload is POSTed only when `collect_instances` returned a truthy value;
Python's `if result:` treats both `None` and the empty list as falsy. -/
def sendsPayload (r : Option (List MetricPoint)) : Bool :=
  match r with
  | none => false
  | some l => !l.isEmpty

/-- Fetch outcome used by witnesses: port 11211 fails, any other port
succeeds with a one-entry raw map. -/
def fetchEx : Nat → Except Unit Stats :=
  fun p => if p = 11211 then Except.error () else Except.ok [("curr_items", 5)]

/-- Fetch outcome where every port fails. -/
def failFetch : Nat → Except Unit Stats := fun _ => Except.error ()

/-! ## The protocol client's write path (source lines 52-80) -/

/-- Failure of the underlying byte-stream write (includes a refused
connection, because the `client` property connects lazily on first use). -/
inductive WriteErr
  | refused
  | closedPipe
deriving DecidableEq

/-- Translation of `MemcachedStats._write` (lines 75-80): append the line
terminator when absent (`cmd.endswith("\n")` on a one-character suffix is
a last-character test), then hand the text to the underlying telnet write
`w`.  No exception is caught on this path. -/
def mc_write (w : String → Except WriteErr Unit) (cmd : String) : Except WriteErr Unit :=
  w (if cmd.data.getLast? = some '\n' then cmd else cmd ++ "\n")

/-- Translation of `MemcachedStats.close` (lines 71-73): write the quit
command and return whatever `_write` returns; nothing is read back and no
error is guarded against. -/
def mc_close (w : String → Except WriteErr Unit) : Except WriteErr Unit :=
  mc_write w "quit"

/-- An underlying write that always fails. -/
def refusingWrite : String → Except WriteErr Unit :=
  fun _ => Except.error WriteErr.refused

/-! ## The compiled patterns (source lines 28-30) and `re.findall` scanning

Python regex semantics modelled here: `findall` returns the leftmost,
non-overlapping matches scanning left to right; a greedy group `(.*)`
matches any characters except `\n` and backtracking tries the longest
group first; `[0-9]+\.?[0-9]*` is greedy with backtracking as well. -/

/-- Greedy backtracking over the length of a group: try the longest split
first.  `searchDown f n` is the first `some` among `f n, f (n-1), ..., f 0`. -/
def searchDown {α : Type} (f : Nat → Option α) : Nat → Option α
  | 0 => f 0
  | n + 1 =>
    match f (n + 1) with
    | some x => some x
    | none => searchDown f n

/-- Match of the value fragment `([0-9]+\.?[0-9]*)\r` of `_stat_regex` at
the start of `s`, returning the group (the trailing CR is outside it).
Greedy backtracking of this fragment succeeds in exactly two shapes: the
maximal digit run followed directly by CR, or the maximal digit run, a
dot, the following maximal digit run, then CR — a digit run shortened by
backtracking is followed by another digit, never by CR, so no other
candidate can close the match. -/
def numThenCR (s : List Char) : Option (List Char) :=
  match s.dropWhile Char.isDigit with
  | [] => none
  | x :: t1 =>
    if x = '\r' then
      if (s.takeWhile Char.isDigit).isEmpty then none
      else some (s.takeWhile Char.isDigit)
    else if x = '.' then
      if (s.takeWhile Char.isDigit).isEmpty then none
      else
        match t1.dropWhile Char.isDigit with
        | y :: _ =>
          if y = '\r' then
            some (s.takeWhile Char.isDigit ++ '.' :: t1.takeWhile Char.isDigit)
          else none
        | [] => none
    else none

/-- One attempt of `_stat_regex` after the literal `STAT `, with the name
group fixed to the first `i` characters of `r`: a space must follow, then
the value fragment. -/
def statAttempt (r : List Char) (i : Nat) : Option (List Char × List Char) :=
  match r.drop i with
  | [] => none
  | x :: s =>
    if x = ' ' then (numThenCR s).map (fun num => (r.take i, num)) else none

/-- Match of `_stat_regex = "STAT (.*) ([0-9]+\.?[0-9]*)\r"` at the start
of `s`: the literal `STAT `, then the greedy name group — bounded by the
current line, since `.` does not match a newline — tried longest first.
Returns the two groups and `k` such that the match spans `k + 1`
characters of `s` (the name group has `i` characters and the value group
is followed by its CR). -/
def statHere (s : List Char) : Option ((String × String) × Nat) :=
  if s.take 5 = ['S', 'T', 'A', 'T', ' '] then
    (searchDown (statAttempt (s.drop 5))
        (((s.drop 5).takeWhile (fun c => c != '\n')).length)).map
      (fun p => ((String.mk p.1, String.mk p.2), 5 + p.1.length + 1 + p.2.length))
  else none

/-- Fuelled form of the `re.findall` scan; the fuel only bounds the
recursion depth and `reFindallF_congr` shows any fuel at least the text
length gives the same result (each step consumes at least one character). -/
def reFindallF {α : Type} (here : List Char → Option (α × Nat)) :
    Nat → List Char → List α
  | _, [] => []
  | 0, _ :: _ => []
  | n + 1, c :: t =>
    match here (c :: t) with
    | some (a, k) => a :: reFindallF here n ((c :: t).drop (k + 1))
    | none => reFindallF here n t

/-- Python `re.findall` scanning: leftmost matches, non-overlapping — the
scan resumes after the end of each match.  `here s = some (a, k)` means a
match at the start of `s` spanning `k + 1` characters. -/
def reFindall {α : Type} (here : List Char → Option (α × Nat)) (s : List Char) :
    List α :=
  reFindallF here s.length s

/-- All `_stat_regex` matches of a response text. -/
def statFindall (s : List Char) : List (String × String) := reFindall statHere s

/-- Python `dict` insertion: replace in place or append. -/
def dictInsert : List (String × String) → String → String → List (String × String)
  | [], key, v => [(key, v)]
  | (k, w) :: t, key, v =>
    if k = key then (key, v) :: t else (k, w) :: dictInsert t key v

/-- Python `dict(pairs)`: insert the pairs left to right. -/
def dictOfStr (ps : List (String × String)) : List (String × String) :=
  ps.foldl (fun m p => dictInsert m p.1 p.2) []

/-- Translation of `MemcachedStats.stats` (lines 103-105): issue the
`stats` command (the response is read up to and including the `END`
sentinel) and build the dict of all `_stat_regex` matches in the
response.  `command` models the request/response exchange with the
server. -/
def mc_stats (command : String → String) : List (String × String) :=
  dictOfStr (statFindall (command "stats").data)

/-! ### Line-level reading of the `STAT` pattern (for claim C5) -/

/-- Value grammar `[0-9]+\.?[0-9]*` matched against an entire fragment
(the fragment that extends to the line's CR): digits, or digits, dot,
digits. -/
def numCore (m : List Char) : Option (List Char) :=
  match m.dropWhile Char.isDigit with
  | [] =>
    if (m.takeWhile Char.isDigit).isEmpty then none
    else some (m.takeWhile Char.isDigit)
  | x :: t1 =>
    if x = '.' then
      if (m.takeWhile Char.isDigit).isEmpty then none
      else
        match t1.dropWhile Char.isDigit with
        | [] => some (m.takeWhile Char.isDigit ++ '.' :: t1.takeWhile Char.isDigit)
        | _ :: _ => none
    else none

/-- One anchored attempt of the line grammar with the name group fixed to
`i` characters. -/
def statAttemptCore (m : List Char) (i : Nat) : Option (List Char × List Char) :=
  match m.drop i with
  | [] => none
  | x :: s =>
    if x = ' ' then (numCore s).map (fun num => (m.take i, num)) else none

/-- Anchored match of the line grammar `STAT <name> <number>` against an
entire logical line (CRLF terminator stripped), greedy name first. -/
def statLineCore (l : List Char) : Option (List Char × List Char) :=
  if l.take 5 = ['S', 'T', 'A', 'T', ' '] then
    searchDown (statAttemptCore (l.drop 5)) (l.drop 5).length
  else none

/-- Leftmost occurrence of the `STAT` line grammar within one logical
line: the pair of (name, value) groups the line contributes. -/
def lineMatch : List Char → Option (List Char × List Char)
  | [] => none
  | c :: t =>
    match statLineCore (c :: t) with
    | some p => some p
    | none => lineMatch t

/-- Protocol framing: logical lines joined by CRLF. -/
def crlfJoin : List (List Char) → List Char
  | [] => []
  | l :: ls => l ++ '\r' :: '\n' :: crlfJoin ls

/-! ### The `_key_regex` and `_slab_regex` scanners -/

/-- Innermost fragment of `_key_regex`: the third greedy group followed by
the literal `]`. -/
def itemAttempt3 (u : List Char) (k : Nat) : Option (List Char × Nat) :=
  match u.drop k with
  | [] => none
  | x :: _ => if x = ']' then some (u.take k, k + 1) else none

/-- Middle fragment of `_key_regex`: the second greedy group, the literal
`; `, then the innermost fragment. -/
def itemAttempt2 (t : List Char) (j : Nat) : Option ((List Char × List Char) × Nat) :=
  match t.drop j with
  | x :: y :: rest2 =>
    if x = ';' then
      if y = ' ' then
        (searchDown (itemAttempt3 rest2)
            ((rest2.takeWhile (fun c => c != '\n')).length)).map
          (fun q => ((t.take j, q.1), j + 2 + q.2))
      else none
    else none
  | _ => none

/-- Outer fragment of `_key_regex`: the first greedy group, the literal
` [`, then the middle fragment. -/
def itemAttempt1 (r : List Char) (i : Nat) :
    Option ((List Char × List Char × List Char) × Nat) :=
  match r.drop i with
  | x :: y :: rest1 =>
    if x = ' ' then
      if y = '[' then
        (searchDown (itemAttempt2 rest1)
            ((rest1.takeWhile (fun c => c != '\n')).length)).map
          (fun q => ((r.take i, q.1.1, q.1.2), i + 2 + q.2))
      else none
    else none
  | _ => none

/-- Match of `_key_regex = "ITEM (.*) \[(.*); (.*)\]"` at the start of
`s`: the literal `ITEM `, then the three greedy groups, each tried longest
first (outermost group has priority), all bounded by the current line. -/
def itemHere (s : List Char) : Option ((String × String × String) × Nat) :=
  if s.take 5 = ['I', 'T', 'E', 'M', ' '] then
    (searchDown (itemAttempt1 (s.drop 5))
        (((s.drop 5).takeWhile (fun c => c != '\n')).length)).map
      (fun q => ((String.mk q.1.1, String.mk q.1.2.1, String.mk q.1.2.2), 4 + q.2))
  else none

/-- All `_key_regex` matches of a response text. -/
def itemFindall (s : List Char) : List (String × String × String) := reFindall itemHere s

/-- One attempt of `_slab_regex` after the literal `STAT items:`: the
greedy group followed by the literal `:number`. -/
def slabAttempt (r : List Char) (i : Nat) : Option (List Char × Nat) :=
  if (r.drop i).take 7 = [':', 'n', 'u', 'm', 'b', 'e', 'r'] then
    some (r.take i, i + 7)
  else none

/-- Match of `_slab_regex = "STAT items:(.*):number"` at the start of `s`. -/
def slabHere (s : List Char) : Option (String × Nat) :=
  if s.take 11 = ['S', 'T', 'A', 'T', ' ', 'i', 't', 'e', 'm', 's', ':'] then
    (searchDown (slabAttempt (s.drop 11))
        (((s.drop 11).takeWhile (fun c => c != '\n')).length)).map
      (fun q => (String.mk q.1, 10 + q.2))
  else none

/-- All `_slab_regex` matches of a response text. -/
def slabFindall (s : List Char) : List String := reFindall slabHere s

/-- Translation of `MemcachedStats.slab_ids` (lines 99-101): issue
`stats items` and extract the slab ids. -/
def slab_ids (command : String → String) : List String :=
  slabFindall (command "stats items").data

/-- Strict lexicographic comparison of character lists by code point,
Python's string ordering. -/
def charListLt : List Char → List Char → Bool
  | [], [] => false
  | [], _ :: _ => true
  | _ :: _, [] => false
  | a :: as, b :: bs =>
    if a.toNat < b.toNat then true
    else if b.toNat < a.toNat then false
    else charListLt as bs

/-- Python `<` on strings. -/
def strLt (a b : String) : Bool := charListLt a.data b.data

/-- Python `<=` on strings. -/
def strLe (a b : String) : Bool := strLt a b || a == b

/-- Python tuple comparison on the `(key, size, expiration)` triples:
lexicographic by components, strings compared by code point. -/
def tripleLe (a b : String × String × String) : Bool :=
  strLt a.1 b.1 ||
    (a.1 == b.1 &&
      (strLt a.2.1 b.2.1 || (a.2.1 == b.2.1 && strLe a.2.2 b.2.2)))

/-- Stable insertion for `sorted`. -/
def insertSorted (x : String × String × String) :
    List (String × String × String) → List (String × String × String)
  | [] => [x]
  | y :: ys => if tripleLe x y then x :: y :: ys else y :: insertSorted x ys

/-- Python `sorted` on the triple list (stable, ascending). -/
def sortTriples : List (String × String × String) → List (String × String × String)
  | [] => []
  | x :: xs => insertSorted x (sortTriples xs)

/-- Translation of `MemcachedStats.key_details` (lines 85-93): for every
slab id from `slab_ids`, issue `stats cachedump <id> <limit>`, collect all
`_key_regex` triples across slabs, optionally sorted. -/
def key_details (command : String → String) (sort : Bool) (limit : Nat) :
    List (String × String × String) :=
  let keys := (slab_ids command).flatMap (fun id =>
    itemFindall (command ("stats cachedump " ++ id ++ " " ++ toString limit)).data)
  if sort then sortTriples keys else keys

/-! ### Concrete protocol exchanges used by witnesses -/

/-- Server whose `stats` response has one matching line, one non-matching
line, and the sentinel. -/
def cmdStats : String → String :=
  fun c => if c = "stats" then "STAT curr_items 10\r\nWhatever else\r\nEND\r\n"
           else "END\r\n"

/-- The logical lines of `cmdStats "stats"`. -/
def lsEx : List (List Char) :=
  [['S', 'T', 'A', 'T', ' ', 'c', 'u', 'r', 'r', '_', 'i', 't', 'e', 'm', 's', ' ', '1', '0'],
   ['W', 'h', 'a', 't', 'e', 'v', 'e', 'r', ' ', 'e', 'l', 's', 'e'],
   ['E', 'N', 'D']]

/-- Server for the cache-dump example of claim C9: one slab (id 1), whose
dump is the response text fixed by the claim. -/
def cmdDump : String → String :=
  fun c =>
    if c = "stats items" then "STAT items:1:number 2\r\nEND\r\n"
    else if c = "stats cachedump 1 100" then
      "ITEM foo [10; 123]\r\nITEM bar [5; 456]\r\nEND\r\n"
    else "END\r\n"

end MC

namespace MC

/-! ## Dictionary lemmas -/

theorem lookupV_eraseKey (m : Stats) (k k' : String) :
    lookupV (eraseKey m k) k' = if k' = k then none else lookupV m k' := by
  induction m with
  | nil => simp [eraseKey, lookupV]
  | cons p t ih =>
    obtain ⟨a, v⟩ := p
    by_cases hak : a = k
    · subst hak
      by_cases hk' : k' = a
      · subst hk'
        simp [eraseKey, lookupV] at ih ⊢
        simpa [eraseKey] using ih
      · simp [eraseKey, lookupV, hk', Ne.symm hk'] at ih ⊢
        simpa [eraseKey, hk'] using ih
    · by_cases hk' : k' = k
      · subst hk'
        simp [eraseKey, lookupV, hak, bne_iff_ne, Ne.symm] at ih ⊢
        rcases eq_or_ne a k' with h | h
        · subst h; simp [ih]
        · simp [Ne.symm h, ih]
      · simp [eraseKey, lookupV, hak, bne_iff_ne, hk'] at ih ⊢
        rcases eq_or_ne a k' with h | h
        · subst h; simp
        · simp [Ne.symm h, ih]

theorem lookupV_setVal (m : Stats) (k : String) (v : ℚ) (k' : String) :
    lookupV (setVal m k v) k' = if k' = k then some v else lookupV m k' := by
  induction m with
  | nil =>
    by_cases h : k' = k <;> simp [setVal, lookupV, h]
    exact fun hk => absurd hk.symm h
  | cons p t ih =>
    obtain ⟨a, w⟩ := p
    by_cases hak : a = k
    · subst hak
      by_cases h : k' = a
      · subst h; simp [setVal, lookupV]
      · simp [setVal, lookupV, h, Ne.symm h]
    · by_cases h : k' = k
      · subst h
        simp [setVal, lookupV, hak, Ne.symm hak, ih]
      · simp [setVal, lookupV, hak, h, ih]

theorem mem_keysOf_iff (m : Stats) (k : String) :
    k ∈ keysOf m ↔ (lookupV m k).isSome := by
  induction m with
  | nil => simp [keysOf, lookupV]
  | cons p t ih =>
    obtain ⟨a, v⟩ := p
    rcases eq_or_ne a k with h | h
    · subst h; simp [keysOf, lookupV]
    · simp [keysOf, lookupV, h, Ne.symm h, ih] at ih ⊢
      exact ih

/-! ## Behaviour of the normalizer -/

/-- Value form of one hit-ratio computation. -/
def hitRatioQ (h mi : ℚ) : ℚ := if h + mi = 0 then 0 else 100 * h / (h + mi)

theorem ratioStep_eq (p : String) (m : Stats) (h mi : ℚ)
    (hh : lookupV m (p ++ "_hits") = some h)
    (hm : lookupV m (p ++ "_misses") = some mi) :
    ratioStep p m = some (setVal m (p ++ "_hit_ratio") (hitRatioQ h mi)) := by
  unfold ratioStep
  rw [hh, hm]
  rfl

theorem ratioStep_lookupV (p : String) (m m' : Stats) (k : String)
    (h : ratioStep p m = some m') (hk : k ≠ p ++ "_hit_ratio") :
    lookupV m' k = lookupV m k := by
  unfold ratioStep at h
  split at h
  · next hh hm =>
    injection h with h
    subst h
    rw [lookupV_setVal, if_neg hk]
  · exact absurd h (by simp)

theorem ratioTail_lookupV (m : Stats) (k : String)
    (h1 : k ≠ "get_hit_ratio") (h2 : k ≠ "incr_hit_ratio")
    (h3 : k ≠ "decr_hit_ratio") (h4 : k ≠ "delete_hit_ratio") :
    lookupV (ratioTail m) k = lookupV m k := by
  have e1 : ¬ k = "get" ++ "_hit_ratio" := by
    rw [show ("get" ++ "_hit_ratio" : String) = "get_hit_ratio" by rfl]; exact h1
  have e2 : ¬ k = "incr" ++ "_hit_ratio" := by
    rw [show ("incr" ++ "_hit_ratio" : String) = "incr_hit_ratio" by rfl]; exact h2
  have e3 : ¬ k = "decr" ++ "_hit_ratio" := by
    rw [show ("decr" ++ "_hit_ratio" : String) = "decr_hit_ratio" by rfl]; exact h3
  have e4 : ¬ k = "delete" ++ "_hit_ratio" := by
    rw [show ("delete" ++ "_hit_ratio" : String) = "delete_hit_ratio" by rfl]; exact h4
  unfold ratioTail
  split
  · rfl
  · next m4 hg =>
    have g4 := ratioStep_lookupV _ _ _ _ hg e1
    split
    · exact g4
    · next m5 hi =>
      have g5 := (ratioStep_lookupV _ _ _ _ hi e2).trans g4
      split
      · exact g5
      · next m6 hd =>
        have g6 := (ratioStep_lookupV _ _ _ _ hd e3).trans g5
        split
        · exact g6
        · next m7 he =>
          exact (ratioStep_lookupV _ _ _ _ he e4).trans g6

/-- Lookup through the two deletions, for an unrelated key. -/
theorem lookupV_afterDel (m : Stats) (k : String)
    (h1 : k ≠ "pid") (h2 : k ≠ "time") :
    lookupV (eraseKey (eraseKey m "pid") "time") k = lookupV m k := by
  rw [lookupV_eraseKey, if_neg h2, lookupV_eraseKey, if_neg h1]

/-- When `pid`, `time`, `bytes`, `limit_maxbytes` are all present and the
limit is nonzero, `wrap_stats` runs to the ratio chain on the map with
`pid`/`time` removed and `usage` set. -/
theorem wrap_stats_to_ratioTail (m : Stats) (pv tv b l : ℚ)
    (hp : lookupV m "pid" = some pv) (ht : lookupV m "time" = some tv)
    (hb : lookupV m "bytes" = some b) (hl : lookupV m "limit_maxbytes" = some l)
    (hl0 : l ≠ 0) :
    wrap_stats m =
      ratioTail (setVal (eraseKey (eraseKey m "pid") "time") "usage" (100 * b / l)) := by
  have ht' : lookupV (eraseKey m "pid") "time" = some tv := by
    rw [lookupV_eraseKey, if_neg (by decide)]; exact ht
  have hb' : lookupV (eraseKey (eraseKey m "pid") "time") "bytes" = some b :=
    (lookupV_afterDel m _ (by decide) (by decide)).trans hb
  have hl' : lookupV (eraseKey (eraseKey m "pid") "time") "limit_maxbytes" = some l :=
    (lookupV_afterDel m _ (by decide) (by decide)).trans hl
  unfold wrap_stats
  rw [hp]
  simp only [ht', hb', hl', if_neg hl0]

/-- When all four hit/miss pairs are present, the ratio chain performs all
four assignments. -/
theorem ratioTail_run (m : Stats) (gh gm ch cm dh dm eh em : ℚ)
    (hgh : lookupV m "get_hits" = some gh) (hgm : lookupV m "get_misses" = some gm)
    (hch : lookupV m "incr_hits" = some ch) (hcm : lookupV m "incr_misses" = some cm)
    (hdh : lookupV m "decr_hits" = some dh) (hdm : lookupV m "decr_misses" = some dm)
    (heh : lookupV m "delete_hits" = some eh) (hem : lookupV m "delete_misses" = some em) :
    ratioTail m =
      setVal (setVal (setVal (setVal m
        "get_hit_ratio" (hitRatioQ gh gm))
        "incr_hit_ratio" (hitRatioQ ch cm))
        "decr_hit_ratio" (hitRatioQ dh dm))
        "delete_hit_ratio" (hitRatioQ eh em) := by
  have r1 := ratioStep_eq "get" m gh gm hgh hgm
  have hch1 : lookupV (setVal m ("get" ++ "_hit_ratio") (hitRatioQ gh gm))
      ("incr" ++ "_hits") = some ch := by
    rw [lookupV_setVal, if_neg (by decide)]; exact hch
  have hcm1 : lookupV (setVal m ("get" ++ "_hit_ratio") (hitRatioQ gh gm))
      ("incr" ++ "_misses") = some cm := by
    rw [lookupV_setVal, if_neg (by decide)]; exact hcm
  have r2 := ratioStep_eq "incr" _ ch cm hch1 hcm1
  have hdh1 : lookupV (setVal (setVal m ("get" ++ "_hit_ratio") (hitRatioQ gh gm))
      ("incr" ++ "_hit_ratio") (hitRatioQ ch cm)) ("decr" ++ "_hits") = some dh := by
    rw [lookupV_setVal, if_neg (by decide), lookupV_setVal, if_neg (by decide)]; exact hdh
  have hdm1 : lookupV (setVal (setVal m ("get" ++ "_hit_ratio") (hitRatioQ gh gm))
      ("incr" ++ "_hit_ratio") (hitRatioQ ch cm)) ("decr" ++ "_misses") = some dm := by
    rw [lookupV_setVal, if_neg (by decide), lookupV_setVal, if_neg (by decide)]; exact hdm
  have r3 := ratioStep_eq "decr" _ dh dm hdh1 hdm1
  have heh1 : lookupV (setVal (setVal (setVal m ("get" ++ "_hit_ratio") (hitRatioQ gh gm))
      ("incr" ++ "_hit_ratio") (hitRatioQ ch cm))
      ("decr" ++ "_hit_ratio") (hitRatioQ dh dm)) ("delete" ++ "_hits") = some eh := by
    rw [lookupV_setVal, if_neg (by decide), lookupV_setVal, if_neg (by decide),
      lookupV_setVal, if_neg (by decide)]; exact heh
  have hem1 : lookupV (setVal (setVal (setVal m ("get" ++ "_hit_ratio") (hitRatioQ gh gm))
      ("incr" ++ "_hit_ratio") (hitRatioQ ch cm))
      ("decr" ++ "_hit_ratio") (hitRatioQ dh dm)) ("delete" ++ "_misses") = some em := by
    rw [lookupV_setVal, if_neg (by decide), lookupV_setVal, if_neg (by decide),
      lookupV_setVal, if_neg (by decide)]; exact hem
  have r4 := ratioStep_eq "delete" _ eh em heh1 hem1
  unfold ratioTail
  simp only [r1, r2, r3, r4]
  rfl

/-- Unpacking of `normReadyB`. -/
theorem normReadyB_spec (m : Stats) (h : normReadyB m = true) :
    ∃ pv tv b l gh gm ch cm dh dm eh em : ℚ,
      lookupV m "pid" = some pv ∧ lookupV m "time" = some tv ∧
      lookupV m "bytes" = some b ∧ lookupV m "limit_maxbytes" = some l ∧ l ≠ 0 ∧
      lookupV m "get_hits" = some gh ∧ lookupV m "get_misses" = some gm ∧
      lookupV m "incr_hits" = some ch ∧ lookupV m "incr_misses" = some cm ∧
      lookupV m "decr_hits" = some dh ∧ lookupV m "decr_misses" = some dm ∧
      lookupV m "delete_hits" = some eh ∧ lookupV m "delete_misses" = some em := by
  unfold normReadyB at h
  simp only [Bool.and_eq_true] at h
  obtain ⟨⟨⟨⟨⟨⟨⟨⟨⟨⟨⟨h1, h2⟩, h3⟩, h4⟩, h5⟩, h6⟩, h7⟩, h8⟩, h9⟩, h10⟩, h11⟩, h12⟩ := h
  obtain ⟨pv, hp⟩ := Option.isSome_iff_exists.mp h1
  obtain ⟨tv, ht⟩ := Option.isSome_iff_exists.mp h2
  obtain ⟨b, hb⟩ := Option.isSome_iff_exists.mp h3
  obtain ⟨gh, hgh⟩ := Option.isSome_iff_exists.mp h5
  obtain ⟨gm, hgm⟩ := Option.isSome_iff_exists.mp h6
  obtain ⟨ch, hch⟩ := Option.isSome_iff_exists.mp h7
  obtain ⟨cm, hcm⟩ := Option.isSome_iff_exists.mp h8
  obtain ⟨dh, hdh⟩ := Option.isSome_iff_exists.mp h9
  obtain ⟨dm, hdm⟩ := Option.isSome_iff_exists.mp h10
  obtain ⟨eh, heh⟩ := Option.isSome_iff_exists.mp h11
  obtain ⟨em, hem⟩ := Option.isSome_iff_exists.mp h12
  cases hml : lookupV m "limit_maxbytes" with
  | none => rw [hml] at h4; cases h4
  | some l =>
    rw [hml] at h4
    exact ⟨pv, tv, b, l, gh, gm, ch, cm, dh, dm, eh, em, hp, ht, hb, rfl,
      of_decide_eq_true h4, hgh, hgm, hch, hcm, hdh, hdm, heh, hem⟩

/-- The returned map never has a `pid` entry: either the deletion happened,
or `pid` was absent from the start (in which case the early `KeyError`
returns the input, which does not contain it either). -/
theorem wrap_stats_lookup_pid (m : Stats) : lookupV (wrap_stats m) "pid" = none := by
  unfold wrap_stats
  split
  · next h => exact h
  · next pv h =>
    split
    · next h2 => rw [lookupV_eraseKey, if_pos rfl]
    · next tv h2 =>
      split
      · next b l h3 h4 =>
        split
        · rw [lookupV_eraseKey, if_neg (by decide), lookupV_eraseKey, if_pos rfl]
        · rw [ratioTail_lookupV _ _ (by decide) (by decide) (by decide) (by decide),
            lookupV_setVal, if_neg (by decide), lookupV_eraseKey, if_neg (by decide),
            lookupV_eraseKey, if_pos rfl]
      · rw [lookupV_eraseKey, if_neg (by decide), lookupV_eraseKey, if_pos rfl]

/-- When `pid` is present the `time` deletion is reached, so the result has
no `time` entry. -/
theorem wrap_stats_lookup_time (m : Stats) (hp : (lookupV m "pid").isSome = true) :
    lookupV (wrap_stats m) "time" = none := by
  obtain ⟨pv, hp⟩ := Option.isSome_iff_exists.mp hp
  unfold wrap_stats
  simp only [hp]
  split
  · next h2 => exact h2
  · next tv h2 =>
    split
    · next b l h3 h4 =>
      split
      · rw [lookupV_eraseKey, if_pos rfl]
      · rw [ratioTail_lookupV _ _ (by decide) (by decide) (by decide) (by decide),
          lookupV_setVal, if_neg (by decide), lookupV_eraseKey, if_pos rfl]
    · rw [lookupV_eraseKey, if_pos rfl]

/-- On a fully-populated map the five derived fields of the result carry
the values of `usageVal` / `ratioVal`. -/
theorem wrap_stats_lookups_normReady (m : Stats) (h : normReadyB m = true) :
    lookupV (wrap_stats m) "usage" = usageVal m
    ∧ lookupV (wrap_stats m) "get_hit_ratio" = ratioVal m "get"
    ∧ lookupV (wrap_stats m) "incr_hit_ratio" = ratioVal m "incr"
    ∧ lookupV (wrap_stats m) "decr_hit_ratio" = ratioVal m "decr"
    ∧ lookupV (wrap_stats m) "delete_hit_ratio" = ratioVal m "delete" := by
  obtain ⟨pv, tv, b, l, gh, gm, ch, cm, dh, dm, eh, em, hp, ht, hb, hl, hl0,
    hgh, hgm, hch, hcm, hdh, hdm, heh, hem⟩ := normReadyB_spec m h
  have A := wrap_stats_to_ratioTail m pv tv b l hp ht hb hl hl0
  have lg1 : lookupV (setVal (eraseKey (eraseKey m "pid") "time") "usage" (100 * b / l))
      "get_hits" = some gh := by
    rw [lookupV_setVal, if_neg (by decide), lookupV_afterDel m _ (by decide) (by decide)]
    exact hgh
  have lg2 : lookupV (setVal (eraseKey (eraseKey m "pid") "time") "usage" (100 * b / l))
      "get_misses" = some gm := by
    rw [lookupV_setVal, if_neg (by decide), lookupV_afterDel m _ (by decide) (by decide)]
    exact hgm
  have lc1 : lookupV (setVal (eraseKey (eraseKey m "pid") "time") "usage" (100 * b / l))
      "incr_hits" = some ch := by
    rw [lookupV_setVal, if_neg (by decide), lookupV_afterDel m _ (by decide) (by decide)]
    exact hch
  have lc2 : lookupV (setVal (eraseKey (eraseKey m "pid") "time") "usage" (100 * b / l))
      "incr_misses" = some cm := by
    rw [lookupV_setVal, if_neg (by decide), lookupV_afterDel m _ (by decide) (by decide)]
    exact hcm
  have ld1 : lookupV (setVal (eraseKey (eraseKey m "pid") "time") "usage" (100 * b / l))
      "decr_hits" = some dh := by
    rw [lookupV_setVal, if_neg (by decide), lookupV_afterDel m _ (by decide) (by decide)]
    exact hdh
  have ld2 : lookupV (setVal (eraseKey (eraseKey m "pid") "time") "usage" (100 * b / l))
      "decr_misses" = some dm := by
    rw [lookupV_setVal, if_neg (by decide), lookupV_afterDel m _ (by decide) (by decide)]
    exact hdm
  have le1 : lookupV (setVal (eraseKey (eraseKey m "pid") "time") "usage" (100 * b / l))
      "delete_hits" = some eh := by
    rw [lookupV_setVal, if_neg (by decide), lookupV_afterDel m _ (by decide) (by decide)]
    exact heh
  have le2 : lookupV (setVal (eraseKey (eraseKey m "pid") "time") "usage" (100 * b / l))
      "delete_misses" = some em := by
    rw [lookupV_setVal, if_neg (by decide), lookupV_afterDel m _ (by decide) (by decide)]
    exact hem
  have B := ratioTail_run _ gh gm ch cm dh dm eh em lg1 lg2 lc1 lc2 ld1 ld2 le1 le2
  rw [A, B]
  refine ⟨?_, ?_, ?_, ?_, ?_⟩
  · rw [lookupV_setVal, if_neg (by decide), lookupV_setVal, if_neg (by decide),
      lookupV_setVal, if_neg (by decide), lookupV_setVal, if_neg (by decide),
      lookupV_setVal, if_pos rfl]
    simp only [usageVal, hb, hl, if_neg hl0]
  · rw [lookupV_setVal, if_neg (by decide), lookupV_setVal, if_neg (by decide),
      lookupV_setVal, if_neg (by decide), lookupV_setVal, if_pos (by decide)]
    simp only [ratioVal, show ("get" ++ "_hits" : String) = "get_hits" from rfl,
      show ("get" ++ "_misses" : String) = "get_misses" from rfl, hgh, hgm]
    rfl
  · rw [lookupV_setVal, if_neg (by decide), lookupV_setVal, if_neg (by decide),
      lookupV_setVal, if_pos (by decide)]
    simp only [ratioVal, show ("incr" ++ "_hits" : String) = "incr_hits" from rfl,
      show ("incr" ++ "_misses" : String) = "incr_misses" from rfl, hch, hcm]
    rfl
  · rw [lookupV_setVal, if_neg (by decide), lookupV_setVal, if_pos (by decide)]
    simp only [ratioVal, show ("decr" ++ "_hits" : String) = "decr_hits" from rfl,
      show ("decr" ++ "_misses" : String) = "decr_misses" from rfl, hdh, hdm]
    rfl
  · rw [lookupV_setVal, if_pos (by decide)]
    simp only [ratioVal, show ("delete" ++ "_hits" : String) = "delete_hits" from rfl,
      show ("delete" ++ "_misses" : String) = "delete_misses" from rfl, heh, hem]
    rfl

/-! ## Claims C1-C4 -/

/-- C1 counterexample: on a map missing the required source key `bytes`
(with `pid` and `time` present), `wrap_stats` does NOT return the original
input unmodified — the result has `pid` and `time` already deleted. -/
theorem wrap_stats_mutates_on_missing_key_cex :
    wrap_stats statsPT = [("get_hits", (3 : ℚ))] ∧ wrap_stats statsPT ≠ statsPT := by
  decide

/-- C1 (amended): when a required source key is missing, `wrap_stats` logs
the `KeyError` and returns the same map with the mutations applied before
the failure kept — a best-effort partial result, not the unmodified input.
In particular, with `pid` and `time` present but `bytes` absent, the result
is the input with `pid` and `time` removed and no derived field added. -/
theorem wrap_stats_missing_bytes_best_effort (m : Stats)
    (hp : (lookupV m "pid").isSome = true) (ht : (lookupV m "time").isSome = true)
    (hb : lookupV m "bytes" = none) :
    wrap_stats m = eraseKey (eraseKey m "pid") "time" := by
  obtain ⟨pv, hp⟩ := Option.isSome_iff_exists.mp hp
  obtain ⟨tv, ht⟩ := Option.isSome_iff_exists.mp ht
  have ht' : lookupV (eraseKey m "pid") "time" = some tv := by
    rw [lookupV_eraseKey, if_neg (by decide)]; exact ht
  have hb' : lookupV (eraseKey (eraseKey m "pid") "time") "bytes" = none :=
    (lookupV_afterDel m _ (by decide) (by decide)).trans hb
  unfold wrap_stats
  simp only [hp, ht', hb']

/-- Witness for the amended C1 at the concrete map `statsPT`. -/
theorem wrap_stats_missing_bytes_best_effort_witness :
    (lookupV statsPT "pid").isSome = true ∧ (lookupV statsPT "time").isSome = true
    ∧ lookupV statsPT "bytes" = none
    ∧ wrap_stats statsPT = eraseKey (eraseKey statsPT "pid") "time" :=
  ⟨by decide, by decide, by decide,
    wrap_stats_missing_bytes_best_effort statsPT (by decide) (by decide) (by decide)⟩

/-- C2 counterexample: when `pid` is absent but `time` is present, the
`del stats['pid']` `KeyError` aborts normalization before `time` is
removed, so the returned map still contains `time`. -/
theorem wrap_stats_keeps_time_cex :
    "time" ∈ keysOf (wrap_stats statsTO)
    ∧ lookupV (wrap_stats statsTO) "time" = some 5 := by
  decide

/-- C2 (amended): the map returned by `wrap_stats` never contains `pid`;
it does not contain `time` provided `pid` was present in the input (when
`pid` is absent a present `time` key survives, since the failed deletion
aborts the rest); and on a successfully normalized map (`normReadyB`) the
result contains `usage` and all four hit ratio fields, each carrying the
derived value (`usageVal` / `ratioVal`, i.e. the ratio formula or the
literal zero when the denominator is zero). -/
theorem wrap_stats_invariant (m : Stats) :
    "pid" ∉ keysOf (wrap_stats m)
    ∧ ((lookupV m "pid").isSome = true → "time" ∉ keysOf (wrap_stats m))
    ∧ (normReadyB m = true →
        ("usage" ∈ keysOf (wrap_stats m)
        ∧ "get_hit_ratio" ∈ keysOf (wrap_stats m)
        ∧ "incr_hit_ratio" ∈ keysOf (wrap_stats m)
        ∧ "decr_hit_ratio" ∈ keysOf (wrap_stats m)
        ∧ "delete_hit_ratio" ∈ keysOf (wrap_stats m)
        ∧ lookupV (wrap_stats m) "usage" = usageVal m
        ∧ lookupV (wrap_stats m) "get_hit_ratio" = ratioVal m "get"
        ∧ lookupV (wrap_stats m) "incr_hit_ratio" = ratioVal m "incr"
        ∧ lookupV (wrap_stats m) "decr_hit_ratio" = ratioVal m "decr"
        ∧ lookupV (wrap_stats m) "delete_hit_ratio" = ratioVal m "delete")) := by
  refine ⟨?_, ?_, ?_⟩
  · simp [mem_keysOf_iff, wrap_stats_lookup_pid]
  · intro hp
    simp [mem_keysOf_iff, wrap_stats_lookup_time m hp]
  · intro hnr
    obtain ⟨L1, L2, L3, L4, L5⟩ := wrap_stats_lookups_normReady m hnr
    obtain ⟨pv, tv, b, l, gh, gm, ch, cm, dh, dm, eh, em, hp, ht, hb, hl, hl0,
      hgh, hgm, hch, hcm, hdh, hdm, heh, hem⟩ := normReadyB_spec m hnr
    have hu : usageVal m = some (100 * b / l) := by
      simp only [usageVal, hb, hl, if_neg hl0]
    have hrg : ratioVal m "get" = some (hitRatioQ gh gm) := by
      simp only [ratioVal, show ("get" ++ "_hits" : String) = "get_hits" from rfl,
        show ("get" ++ "_misses" : String) = "get_misses" from rfl, hgh, hgm]
      rfl
    have hrc : ratioVal m "incr" = some (hitRatioQ ch cm) := by
      simp only [ratioVal, show ("incr" ++ "_hits" : String) = "incr_hits" from rfl,
        show ("incr" ++ "_misses" : String) = "incr_misses" from rfl, hch, hcm]
      rfl
    have hrd : ratioVal m "decr" = some (hitRatioQ dh dm) := by
      simp only [ratioVal, show ("decr" ++ "_hits" : String) = "decr_hits" from rfl,
        show ("decr" ++ "_misses" : String) = "decr_misses" from rfl, hdh, hdm]
      rfl
    have hre : ratioVal m "delete" = some (hitRatioQ eh em) := by
      simp only [ratioVal, show ("delete" ++ "_hits" : String) = "delete_hits" from rfl,
        show ("delete" ++ "_misses" : String) = "delete_misses" from rfl, heh, hem]
      rfl
    refine ⟨?_, ?_, ?_, ?_, ?_, L1, L2, L3, L4, L5⟩
    · rw [mem_keysOf_iff, L1, hu]; rfl
    · rw [mem_keysOf_iff, L2, hrg]; rfl
    · rw [mem_keysOf_iff, L3, hrc]; rfl
    · rw [mem_keysOf_iff, L4, hrd]; rfl
    · rw [mem_keysOf_iff, L5, hre]; rfl

/-- Witness for the amended C2 at the concrete map `statsFull`. -/
theorem wrap_stats_invariant_witness :
    (lookupV statsFull "pid").isSome = true ∧ normReadyB statsFull = true
    ∧ "pid" ∉ keysOf (wrap_stats statsFull)
    ∧ "time" ∉ keysOf (wrap_stats statsFull)
    ∧ "usage" ∈ keysOf (wrap_stats statsFull) :=
  ⟨by decide, by decide, (wrap_stats_invariant statsFull).1,
    (wrap_stats_invariant statsFull).2.1 (by decide),
    ((wrap_stats_invariant statsFull).2.2 (by decide)).1⟩

/-- C3 counterexample: the input contains `bytes = 50` and
`limit_maxbytes = 100` but no `pid`, so the `del stats['pid']` `KeyError`
fires before `usage` is ever computed; the claim's unconditional statement
fails. -/
theorem wrap_stats_usage_cex :
    lookupV (wrap_stats statsBL) "usage" = none ∧ wrap_stats statsBL = statsBL := by
  decide

/-- C3 (amended): on every map that also contains `pid` and `time` (so the
initial deletions succeed) and has `bytes = b`, `limit_maxbytes = l ≠ 0`,
`wrap_stats` yields `usage = 100 * b / l`; in particular `b = 50`,
`l = 100` gives `usage = 50` (Python renders it `"50.0"`). -/
theorem wrap_stats_usage (m : Stats) (b l : ℚ)
    (hp : (lookupV m "pid").isSome = true) (ht : (lookupV m "time").isSome = true)
    (hb : lookupV m "bytes" = some b) (hl : lookupV m "limit_maxbytes" = some l)
    (hl0 : l ≠ 0) :
    lookupV (wrap_stats m) "usage" = some (100 * b / l) := by
  obtain ⟨pv, hp⟩ := Option.isSome_iff_exists.mp hp
  obtain ⟨tv, ht⟩ := Option.isSome_iff_exists.mp ht
  rw [wrap_stats_to_ratioTail m pv tv b l hp ht hb hl hl0,
    ratioTail_lookupV _ _ (by decide) (by decide) (by decide) (by decide),
    lookupV_setVal, if_pos rfl]

/-- Witness for the amended C3: `bytes = 50`, `limit_maxbytes = 100` (with
`pid`/`time` present) yields `usage = 50`. -/
theorem wrap_stats_usage_witness :
    (lookupV statsU "pid").isSome = true ∧ (lookupV statsU "time").isSome = true
    ∧ lookupV statsU "bytes" = some 50 ∧ lookupV statsU "limit_maxbytes" = some 100
    ∧ (100 : ℚ) ≠ 0
    ∧ lookupV (wrap_stats statsU) "usage" = some 50 := by
  refine ⟨by decide, by decide, by decide, by decide, by decide, ?_⟩
  rw [wrap_stats_usage statsU 50 100 (by decide) (by decide) (by decide) (by decide)
    (by decide)]
  norm_num

/-- C4 (confirmed): on a map where normalization runs to completion, each
of the four hit-ratio pairs produces `100 * hits / (hits + misses)`, and
the literal zero value when the denominator `hits + misses` is zero — the
code never divides by zero and `wrap_stats` is a total function (the
`finally: return stats` swallows every exception), so it never raises. -/
theorem wrap_stats_hit_ratio (m : Stats) (p : String) (h mi : ℚ)
    (hnr : normReadyB m = true)
    (hp : p ∈ (["get", "incr", "decr", "delete"] : List String))
    (hh : lookupV m (p ++ "_hits") = some h)
    (hm : lookupV m (p ++ "_misses") = some mi) :
    lookupV (wrap_stats m) (p ++ "_hit_ratio")
      = some (if h + mi = 0 then 0 else 100 * h / (h + mi)) := by
  have L := wrap_stats_lookups_normReady m hnr
  simp only [List.mem_cons, List.not_mem_nil, or_false] at hp
  obtain rfl | rfl | rfl | rfl := hp
  · rw [show ("get" ++ "_hit_ratio" : String) = "get_hit_ratio" from rfl, L.2.1]
    simp only [ratioVal, hh, hm]
  · rw [show ("incr" ++ "_hit_ratio" : String) = "incr_hit_ratio" from rfl, L.2.2.1]
    simp only [ratioVal, hh, hm]
  · rw [show ("decr" ++ "_hit_ratio" : String) = "decr_hit_ratio" from rfl, L.2.2.2.1]
    simp only [ratioVal, hh, hm]
  · rw [show ("delete" ++ "_hit_ratio" : String) = "delete_hit_ratio" from rfl, L.2.2.2.2]
    simp only [ratioVal, hh, hm]

/-- Witness for C4: on `statsFull` the `get` pair 3/1 yields ratio `75`
(Python `"75.0"`) and the `incr` pair 0/0 yields the literal zero. -/
theorem wrap_stats_hit_ratio_witness :
    normReadyB statsFull = true
    ∧ "get" ∈ (["get", "incr", "decr", "delete"] : List String)
    ∧ lookupV statsFull ("get" ++ "_hits") = some 3
    ∧ lookupV statsFull ("get" ++ "_misses") = some 1
    ∧ lookupV (wrap_stats statsFull) ("get" ++ "_hit_ratio") = some 75
    ∧ lookupV (wrap_stats statsFull) ("incr" ++ "_hit_ratio") = some 0 := by
  refine ⟨by decide, by decide, by decide, by decide, ?_, ?_⟩
  · rw [wrap_stats_hit_ratio statsFull "get" 3 1 (by decide) (by decide) (by decide)
      (by decide)]
    norm_num
  · rw [wrap_stats_hit_ratio statsFull "incr" 0 0 (by decide) (by decide) (by decide)
      (by decide)]
    norm_num

/-! ## Claims C6, C7, C10 (the collector) and C8 (close) -/

/-- Folding the per-port loop equals the flat concatenation of per-port
contributions. -/
theorem collect_foldl_eq (host : String) (now : Nat) (fetch : Nat → Except Unit Stats) :
    ∀ (l : List Nat) (acc : List MetricPoint),
      l.foldl (fun data port =>
        match fetch port with
        | Except.error _ => data
        | Except.ok raw => data ++ instancePoints host now port (wrap_stats raw)) acc
      = acc ++ l.flatMap (portPoints host now fetch) := by
  intro l
  induction l with
  | nil => intro acc; simp
  | cons p t ih =>
    intro acc
    simp only [List.foldl_cons, List.flatMap_cons]
    cases hf : fetch p with
    | error e => rw [ih]; simp [portPoints, hf]
    | ok raw => rw [ih]; simp [portPoints, hf]

/-- C6 (confirmed): over a nonempty port list the collection result is
exactly the concatenation of every port's contribution; a port whose fetch
fails (connection refused, protocol error such as a stream closed before
the `END` sentinel, timeout — all caught by the bare `except` and logged)
contributes the empty list without aborting the loop, and every point of
every successful instance is in the overall result. -/
theorem collect_instances_isolates_failures (host : String) (now : Nat)
    (ports : List Nat) (fetch : Nat → Except Unit Stats) (hne : ports ≠ []) :
    collect_instances host now ports fetch
      = some (ports.flatMap (portPoints host now fetch))
    ∧ (∀ p ∈ ports, ∀ e, fetch p = Except.error e → portPoints host now fetch p = [])
    ∧ (∀ p ∈ ports, ∀ raw, fetch p = Except.ok raw →
        ∀ pt ∈ instancePoints host now p (wrap_stats raw),
          pt ∈ ports.flatMap (portPoints host now fetch)) := by
  refine ⟨?_, ?_, ?_⟩
  · unfold collect_instances
    rw [if_neg (by simpa using hne)]
    rw [collect_foldl_eq host now fetch ports []]
    simp
  · intro p hp e he
    unfold portPoints
    rw [he]
  · intro p hp raw hraw pt hpt
    rw [List.mem_flatMap]
    refine ⟨p, hp, ?_⟩
    unfold portPoints
    rw [hraw]
    exact hpt

/-- Witness for C6 at a two-port list where the first port fails and the
second succeeds. -/
theorem collect_instances_isolates_failures_witness :
    (([11211, 11212] : List Nat) ≠ [])
    ∧ collect_instances "h" 0 [11211, 11212] fetchEx
        = some ([11211, 11212].flatMap (portPoints "h" 0 fetchEx)) :=
  ⟨by decide,
    (collect_instances_isolates_failures "h" 0 [11211, 11212] fetchEx (by decide)).1⟩

/-- C7 (confirmed): each surviving normalized stat entry yields exactly one
metric point (`instancePoints` maps the entries one to one); its endpoint
is the local host identifier, its timestamp the collection instant, its
step the fixed 60 seconds and its tags `port=<n>`; a key on the gauge
allow-list produces metric name `mc.<key>` with type `GAUGE`, every other
key produces `mc.<key>_cps` with type `COUNTER`. -/
theorem mkPoint_fields (host : String) (now : Nat) (port : Nat) (k : String) (v : ℚ)
    (st : Stats) :
    ((mkPoint host now port k v).endpoint = host
      ∧ (mkPoint host now port k v).timestamp = now
      ∧ (mkPoint host now port k v).step = 60
      ∧ (mkPoint host now port k v).value = v
      ∧ (mkPoint host now port k v).tags = "port=" ++ toString port)
    ∧ (k ∈ gauges →
        (mkPoint host now port k v).metric = "mc." ++ k
        ∧ (mkPoint host now port k v).counterType = "GAUGE")
    ∧ (k ∉ gauges →
        (mkPoint host now port k v).metric = "mc." ++ k ++ "_cps"
        ∧ (mkPoint host now port k v).counterType = "COUNTER")
    ∧ (instancePoints host now port st).length = st.length
    ∧ instancePoints host now port st
        = st.map (fun kv => mkPoint host now port kv.1 kv.2) := by
  refine ⟨⟨rfl, rfl, rfl, rfl, rfl⟩, ?_, ?_, by simp [instancePoints], rfl⟩
  · intro hk
    constructor
    · simp [mkPoint, hk]
    · simp [mkPoint, hk]
  · intro hk
    constructor
    · simp [mkPoint, hk]
    · simp [mkPoint, hk]

/-- Witness for C7: `usage` is on the gauge allow-list and keeps its name
with type GAUGE; `cmd_get` is not and gets `_cps` with type COUNTER. -/
theorem mkPoint_fields_witness :
    ("usage" ∈ gauges
      ∧ (mkPoint "h" 7 3 "usage" 5).metric = "mc.usage"
      ∧ (mkPoint "h" 7 3 "usage" 5).counterType = "GAUGE")
    ∧ ("cmd_get" ∉ gauges
      ∧ (mkPoint "h" 7 3 "cmd_get" 5).metric = "mc.cmd_get_cps"
      ∧ (mkPoint "h" 7 3 "cmd_get" 5).counterType = "COUNTER")
    ∧ (mkPoint "h" 7 3 "usage" 5).tags = "port=3" := by
  have A := mkPoint_fields "h" 7 3 "usage" 5 []
  have B := mkPoint_fields "h" 7 3 "cmd_get" 5 []
  refine ⟨⟨by decide, ?_, ?_⟩, ⟨by decide, ?_, ?_⟩, ?_⟩
  · rw [(A.2.1 (by decide)).1]; decide
  · exact (A.2.1 (by decide)).2
  · rw [(B.2.2.1 (by decide)).1]; decide
  · exact (B.2.2.1 (by decide)).2
  · rw [A.1.2.2.2.2]; decide

/-- C10 (confirmed): with no discovered ports `collect_instances` returns
`none` (Python `None`, from the bare `return`); with ports all failing it
returns `some []` (an empty list); the `__main__` guard `if result:` posts
in neither case, and posts exactly when the list is nonempty. -/
theorem collect_instances_empty_outcomes (host : String) (now : Nat)
    (ports : List Nat) (fetch : Nat → Except Unit Stats) :
    collect_instances host now [] fetch = none
    ∧ (ports ≠ [] → (∀ p ∈ ports, fetch p = Except.error ()) →
        collect_instances host now ports fetch = some [])
    ∧ sendsPayload none = false
    ∧ sendsPayload (some []) = false
    ∧ (∀ l : List MetricPoint, l ≠ [] → sendsPayload (some l) = true) := by
  refine ⟨rfl, ?_, rfl, rfl, ?_⟩
  · intro hne hall
    have hfm : ∀ t : List Nat, (∀ p ∈ t, fetch p = Except.error ()) →
        t.flatMap (portPoints host now fetch) = [] := by
      intro t
      induction t with
      | nil => intro _; rfl
      | cons p t ih =>
        intro h
        rw [List.flatMap_cons]
        have h1 : portPoints host now fetch p = [] := by
          unfold portPoints
          rw [h p (by simp)]
        rw [h1, List.nil_append]
        exact ih (fun q hq => h q (by simp [hq]))
    unfold collect_instances
    rw [if_neg (by simpa using hne)]
    rw [collect_foldl_eq host now fetch ports []]
    simp only [List.nil_append, Option.some.injEq]
    exact hfm ports hall
  · intro l hl
    simp [sendsPayload, hl]

/-- Witness for C10: both empty outcomes at concrete inputs. -/
theorem collect_instances_empty_outcomes_witness :
    collect_instances "h" 0 [] failFetch = none
    ∧ (([11211] : List Nat) ≠ [])
    ∧ failFetch 11211 = Except.error ()
    ∧ collect_instances "h" 0 [11211] failFetch = some []
    ∧ sendsPayload none = false
    ∧ sendsPayload (some []) = false := by
  refine ⟨(collect_instances_empty_outcomes "h" 0 [] failFetch).1, by decide, rfl, ?_,
    rfl, rfl⟩
  exact (collect_instances_empty_outcomes "h" 0 [11211] failFetch).2.1 (by decide)
    (fun p hp => rfl)

/-- C8 counterexample: when the underlying write fails (for instance the
lazy connect inside the `client` property is refused), `close()` raises —
the claim that it never fails the caller is false. -/
theorem mc_close_propagates_failure_cex :
    mc_close refusingWrite = Except.error WriteErr.refused := rfl

/-- C8 (amended): `close()` writes exactly the quit command (line
terminator appended) and neither reads nor waits for a response; its
result is precisely the underlying write's result, so a failing write
propagates its error to the caller — only the per-port `except` in
`collect_instances` contains such failures. -/
theorem mc_close_eq_write (w : String → Except WriteErr Unit) :
    mc_close w = w "quit\n" := by
  unfold mc_close mc_write
  rw [if_neg (by decide)]
  exact congrArg w (by decide)

/-! ## Claim C9 (key_details) -/

/-- C9 (confirmed): on the cache-dump response text
`"ITEM foo [10; 123]\r\nITEM bar [5; 456]\r\nEND\r\n"` (served for the
single slab id 1), `key_details` returns exactly the two entries with key
names `foo` and `bar` (and their size/expiration groups), and with
`sort = true` the entries come back in the order `bar`, `foo`. -/
theorem key_details_example :
    key_details cmdDump false 100 = [("foo", "10", "123"), ("bar", "5", "456")]
    ∧ key_details cmdDump true 100 = [("bar", "5", "456"), ("foo", "10", "123")] := by
  decide

/-! ## Claim C5: the `stats` parse is linewise

The scan of `_stat_regex` over a CRLF-framed response visits each logical
line independently: a match needs the CR that only occurs at the end of a
line, `.` cannot cross the LF, and the scan resumes right after the CR.
The lemmas below make that precise, relating the flat `findall` scan to
the per-line reading `lineMatch`. -/

theorem takeWhile_append_all (p : Char → Bool) (a b : List Char)
    (h : ∀ c ∈ a, p c = true) :
    (a ++ b).takeWhile p = a ++ b.takeWhile p := by
  induction a with
  | nil => simp
  | cons c t ih =>
    have hc : p c = true := h c (by simp)
    simp only [List.cons_append, List.takeWhile_cons, hc, if_true]
    rw [ih (fun x hx => h x (by simp [hx]))]

theorem dropWhile_append_all (p : Char → Bool) (a b : List Char)
    (h : ∀ c ∈ a, p c = true) :
    (a ++ b).dropWhile p = b.dropWhile p := by
  induction a with
  | nil => simp
  | cons c t ih =>
    have hc : p c = true := h c (by simp)
    simp only [List.cons_append, List.dropWhile_cons, hc, if_true]
    exact ih (fun x hx => h x (by simp [hx]))

theorem dropWhile_head_false (p : Char → Bool) (a : List Char) (x : Char)
    (xs : List Char) (h : a.dropWhile p = x :: xs) : p x = false := by
  induction a with
  | nil => cases h
  | cons c t ih =>
    rw [List.dropWhile_cons] at h
    by_cases hc : p c = true
    · rw [if_pos hc] at h; exact ih h
    · rw [if_neg hc] at h
      injection h with h1 _
      subst h1
      simpa using hc

theorem takeWhile_append_stop (p : Char → Bool) (a b : List Char) (x : Char)
    (xs : List Char) (hd : a.dropWhile p = x :: xs) :
    (a ++ b).takeWhile p = a.takeWhile p := by
  have hx : p x = false := dropWhile_head_false p a x xs hd
  conv_lhs => rw [← List.takeWhile_append_dropWhile (p := p) (l := a), hd]
  rw [List.append_assoc,
    takeWhile_append_all p _ _ (fun c hc => List.mem_takeWhile_imp hc)]
  simp [List.takeWhile_cons, hx]

theorem dropWhile_append_stop (p : Char → Bool) (a b : List Char) (x : Char)
    (xs : List Char) (hd : a.dropWhile p = x :: xs) :
    (a ++ b).dropWhile p = a.dropWhile p ++ b := by
  have hx : p x = false := dropWhile_head_false p a x xs hd
  conv_lhs => rw [← List.takeWhile_append_dropWhile (p := p) (l := a), hd]
  rw [List.append_assoc,
    dropWhile_append_all p _ _ (fun c hc => List.mem_takeWhile_imp hc)]
  rw [hd]
  simp [List.dropWhile_cons, hx]

/-- The fuelled value fragment agrees with the line-level value grammar:
with the CR restored after a CR-free fragment `m`, `numThenCR` matches
exactly when `numCore` accepts `m`, with the same group. -/
theorem numThenCR_ext (m z : List Char) (hm : '\r' ∉ m) :
    numThenCR (m ++ '\r' :: z) = numCore m := by
  by_cases hall : ∀ c ∈ m, Char.isDigit c = true
  · have ht : m.takeWhile Char.isDigit = m := List.takeWhile_eq_self_iff.mpr hall
    have hd : m.dropWhile Char.isDigit = [] := List.dropWhile_eq_nil_iff.mpr hall
    have e1 : (m ++ '\r' :: z).dropWhile Char.isDigit = '\r' :: z := by
      rw [dropWhile_append_all _ _ _ hall]
      simp [List.dropWhile_cons]
    have e2 : (m ++ '\r' :: z).takeWhile Char.isDigit = m := by
      rw [takeWhile_append_all _ _ _ hall]
      simp [List.takeWhile_cons, ht]
    unfold numThenCR numCore
    rw [e1, e2, ht, hd]
    simp
  · rcases hdw : m.dropWhile Char.isDigit with _ | ⟨x, xs⟩
    · exact absurd (List.dropWhile_eq_nil_iff.mp hdw) hall
    have hx : Char.isDigit x = false := dropWhile_head_false _ m x xs hdw
    have hxm : x ∈ m :=
      (List.dropWhile_sublist (l := m) (p := Char.isDigit)).subset
        (by rw [hdw]; exact List.mem_cons_self x xs)
    have hxr : ¬ x = '\r' := fun h => hm (h ▸ hxm)
    have e1 : (m ++ '\r' :: z).dropWhile Char.isDigit = x :: (xs ++ '\r' :: z) := by
      rw [dropWhile_append_stop _ _ _ _ _ hdw, hdw]
      rfl
    have e2 : (m ++ '\r' :: z).takeWhile Char.isDigit = m.takeWhile Char.isDigit :=
      takeWhile_append_stop _ _ _ _ _ hdw
    unfold numThenCR numCore
    rw [e1, e2, hdw]
    by_cases hdot : x = '.'
    · subst hdot
      simp only [if_neg hxr, if_pos rfl]
      by_cases hemp : (m.takeWhile Char.isDigit).isEmpty = true
      · rw [if_pos hemp, if_pos hemp]
      · rw [if_neg hemp, if_neg hemp]
        by_cases hall2 : ∀ c ∈ xs, Char.isDigit c = true
        · have ht2 : xs.takeWhile Char.isDigit = xs := List.takeWhile_eq_self_iff.mpr hall2
          have hd2 : xs.dropWhile Char.isDigit = [] := List.dropWhile_eq_nil_iff.mpr hall2
          have e3 : (xs ++ '\r' :: z).dropWhile Char.isDigit = '\r' :: z := by
            rw [dropWhile_append_all _ _ _ hall2]
            simp [List.dropWhile_cons]
          have e4 : (xs ++ '\r' :: z).takeWhile Char.isDigit = xs := by
            rw [takeWhile_append_all _ _ _ hall2]
            simp [List.takeWhile_cons, ht2]
          rw [e3, e4, ht2, hd2]
          simp
        · rcases hdw2 : xs.dropWhile Char.isDigit with _ | ⟨y, ys⟩
          · exact absurd (List.dropWhile_eq_nil_iff.mp hdw2) hall2
          have hym : y ∈ xs :=
            (List.dropWhile_sublist (l := xs) (p := Char.isDigit)).subset
              (by rw [hdw2]; exact List.mem_cons_self y ys)
          have hyM : y ∈ m := by
            have : y ∈ m.dropWhile Char.isDigit := by
              rw [hdw]; exact List.mem_cons_of_mem _ hym
            exact (List.dropWhile_sublist (l := m) (p := Char.isDigit)).subset this
          have hyr : ¬ y = '\r' := fun h => hm (h ▸ hyM)
          have e3 : (xs ++ '\r' :: z).dropWhile Char.isDigit = y :: (ys ++ '\r' :: z) := by
            rw [dropWhile_append_stop _ _ _ _ _ hdw2, hdw2]
            rfl
          rw [e3]
          simp [hyr]
    · simp [if_neg hxr, if_neg hdot]

theorem searchDown_congr {α : Type} (f g : Nat → Option α) :
    ∀ n, (∀ i, i ≤ n → f i = g i) → searchDown f n = searchDown g n := by
  intro n
  induction n with
  | zero =>
    intro h
    unfold searchDown
    rw [h 0 (le_refl 0)]
  | succ n ih =>
    intro h
    unfold searchDown
    rw [h (n + 1) (le_refl _)]
    cases hg : g (n + 1) with
    | some x => rfl
    | none => exact ih (fun i hi => h i (le_trans hi (Nat.le_succ n)))

theorem searchDown_some {α : Type} (f : Nat → Option α) :
    ∀ (n : Nat) (x : α), searchDown f n = some x → ∃ i, i ≤ n ∧ f i = some x := by
  intro n
  induction n with
  | zero => intro x h; exact ⟨0, le_refl 0, h⟩
  | succ n ih =>
    intro x h
    unfold searchDown at h
    cases hf : f (n + 1) with
    | some y =>
      rw [hf] at h
      exact ⟨n + 1, le_refl _, by rw [hf]; exact h⟩
    | none =>
      rw [hf] at h
      obtain ⟨i, hi, hfi⟩ := ih x h
      exact ⟨i, le_trans hi (Nat.le_succ n), hfi⟩

theorem searchDown_step {α : Type} (f : Nat → Option α) (n : Nat)
    (h : f (n + 1) = none) : searchDown f (n + 1) = searchDown f n := by
  conv_lhs => unfold searchDown
  rw [h]

/-- The line-level value grammar only accepts when it spans its whole
fragment (the value must run up to the line's CR). -/
theorem numCore_eq_self (m num : List Char) (h : numCore m = some num) : num = m := by
  unfold numCore at h
  split at h
  · next hdw =>
    split at h
    · cases h
    · next hemp =>
      injection h with h1
      rw [← h1]
      conv_rhs => rw [← List.takeWhile_append_dropWhile (p := Char.isDigit) (l := m), hdw]
      simp
  · next x t1 hdw =>
    split at h
    · next hdot =>
      subst hdot
      split at h
      · cases h
      · next hemp =>
        split at h
        · next hdw2 =>
          injection h with h1
          rw [← h1]
          have ht1 : t1.takeWhile Char.isDigit = t1 :=
            List.takeWhile_eq_self_iff.mpr (List.dropWhile_eq_nil_iff.mp hdw2)
          rw [ht1]
          conv_rhs => rw [← List.takeWhile_append_dropWhile (p := Char.isDigit) (l := m), hdw]
        · cases h
    · cases h

/-- Attempts of the flat scan agree with the anchored line-level attempts
once the CR is restored after a CR-free fragment. -/
theorem statAttempt_ext (m z : List Char) (hm : '\r' ∉ m)
    (hz : z = [] ∨ ∃ rest, z = '\n' :: rest) :
    ∀ i, i ≤ m.length + 1 → statAttempt (m ++ '\r' :: z) i = statAttemptCore m i := by
  intro i hi
  unfold statAttempt statAttemptCore
  rcases Nat.lt_or_ge i (m.length + 1) with hlt | hge
  · have him : i ≤ m.length := Nat.lt_succ_iff.mp hlt
    have hdrop : (m ++ '\r' :: z).drop i = m.drop i ++ '\r' :: z := by
      rw [List.drop_append_eq_append_drop, Nat.sub_eq_zero_of_le him]
      rfl
    have htake : (m ++ '\r' :: z).take i = m.take i := by
      rw [List.take_append_eq_append_take, Nat.sub_eq_zero_of_le him]
      simp
    rw [hdrop, htake]
    cases hmi : m.drop i with
    | nil => simp
    | cons x s' =>
      have hs'm : ∀ c ∈ s', c ∈ m := by
        intro c hc
        exact (List.drop_sublist i m).subset (by rw [hmi]; exact List.mem_cons_of_mem _ hc)
      by_cases hx : x = ' '
      · subst hx
        simp only [List.cons_append, if_pos rfl]
        rw [numThenCR_ext s' z (fun hc => hm (hs'm _ hc))]
      · simp [hx]
  · have hieq : i = m.length + 1 := le_antisymm hi hge
    subst hieq
    have hdrop : (m ++ '\r' :: z).drop (m.length + 1) = z := by
      rw [List.drop_append_eq_append_drop, List.drop_eq_nil_of_le (Nat.le_succ _)]
      simp
    have hmd : m.drop (m.length + 1) = [] := List.drop_eq_nil_of_le (Nat.le_succ _)
    rw [hdrop, hmd]
    rcases hz with rfl | ⟨rest, rfl⟩
    · rfl
    · simp

/-- Restoring the CRLF after a CR/LF-free logical line, the flat-scan
match at the start of the text is exactly the anchored line match, and a
successful match spans the line and its CR (`l.length + 1` characters). -/
theorem statHere_ext (l z : List Char) (hr : '\r' ∉ l) (hn : '\n' ∉ l)
    (hz : z = [] ∨ ∃ rest, z = '\n' :: rest) :
    statHere (l ++ '\r' :: z)
      = (statLineCore l).map (fun p => ((String.mk p.1, String.mk p.2), l.length)) := by
  by_cases h5 : l.take 5 = ['S', 'T', 'A', 'T', ' ']
  · have hlen5 : 5 ≤ l.length := by
      have h1 : (l.take 5).length = 5 := by rw [h5]; rfl
      rw [List.length_take] at h1
      omega
    have htake : (l ++ '\r' :: z).take 5 = l.take 5 := by
      rw [List.take_append_eq_append_take, Nat.sub_eq_zero_of_le hlen5]
      simp
    have hdrop : (l ++ '\r' :: z).drop 5 = l.drop 5 ++ '\r' :: z := by
      rw [List.drop_append_eq_append_drop, Nat.sub_eq_zero_of_le hlen5]
      rfl
    have hnd : '\n' ∉ l.drop 5 := fun h => hn ((List.drop_sublist 5 l).subset h)
    have hrd : '\r' ∉ l.drop 5 := fun h => hr ((List.drop_sublist 5 l).subset h)
    unfold statHere statLineCore
    rw [htake, if_pos h5, if_pos h5, hdrop]
    have hball : ∀ c ∈ l.drop 5, (c != '\n') = true := by
      intro c hc
      simp only [bne_iff_ne, ne_eq]
      exact fun h => hnd (h ▸ hc)
    have hb : ((l.drop 5 ++ '\r' :: z).takeWhile (fun c => c != '\n')).length
        = (l.drop 5).length + 1 := by
      rw [takeWhile_append_all _ _ _ hball]
      rcases hz with rfl | ⟨rest, rfl⟩
      · simp [List.takeWhile_cons]
      · simp [List.takeWhile_cons]
    rw [hb]
    have hstep : statAttempt (l.drop 5 ++ '\r' :: z) ((l.drop 5).length + 1) = none := by
      rw [statAttempt_ext (l.drop 5) z hrd hz ((l.drop 5).length + 1) (le_refl _)]
      unfold statAttemptCore
      rw [List.drop_eq_nil_of_le (Nat.le_succ _)]
    rw [searchDown_step _ _ hstep,
      searchDown_congr _ _ _
        (fun i hi => statAttempt_ext (l.drop 5) z hrd hz i (le_trans hi (Nat.le_succ _)))]
    cases hsd : searchDown (statAttemptCore (l.drop 5)) (l.drop 5).length with
    | none => rfl
    | some p =>
      obtain ⟨i, hi, hatt⟩ := searchDown_some _ _ _ hsd
      unfold statAttemptCore at hatt
      split at hatt
      · cases hatt
      · next x sv hmi =>
        split at hatt
        · next hx =>
          cases hnc : numCore sv with
          | none => rw [hnc] at hatt; cases hatt
          | some num =>
            rw [hnc] at hatt
            have hp : p = ((l.drop 5).take i, num) := by
              injection hatt with h1
              exact h1.symm
            have hnum : num = sv := numCore_eq_self sv num hnc
            subst hp
            subst hnum
            have hlen : (l.drop 5).length = i + 1 + num.length := by
              have h2 := congrArg List.length hmi
              rw [List.length_drop] at h2
              simp only [List.length_cons] at h2
              omega
            have harith : 5 + ((l.drop 5).take i).length + 1 + num.length = l.length := by
              rw [List.length_take]
              have h3 : (l.drop 5).length = l.length - 5 := List.length_drop 5 l
              omega
            simp only [Option.map_some']
            rw [harith]
        · cases hatt
  · have h5' : ¬ (l ++ '\r' :: z).take 5 = ['S', 'T', 'A', 'T', ' '] := by
      intro hcon
      rcases Nat.lt_or_ge l.length 5 with hlt | hge
      · have hmem : '\r' ∈ (l ++ '\r' :: z).take 5 := by
          rw [List.take_append_eq_append_take]
          refine List.mem_append_right _ ?_
          cases h5l : 5 - l.length with
          | zero => omega
          | succ k => simp
        rw [hcon] at hmem
        simp at hmem
      · rw [List.take_append_eq_append_take, Nat.sub_eq_zero_of_le hge] at hcon
        simp at hcon
        exact h5 hcon
    unfold statHere statLineCore
    rw [if_neg h5', if_neg h5]
    rfl

/-- Fuel irrelevance of the scan: any fuel at least the text length gives
the same result, because every step consumes at least one character. -/
theorem reFindallF_congr {α : Type} (here : List Char → Option (α × Nat)) :
    ∀ (n m : Nat) (s : List Char), s.length ≤ n → s.length ≤ m →
      reFindallF here n s = reFindallF here m s := by
  intro n
  induction n with
  | zero =>
    intro m s hn hm
    have hs : s = [] := List.length_eq_zero.mp (Nat.le_zero.mp hn)
    subst hs
    cases m <;> rfl
  | succ n ih =>
    intro m s hn hm
    cases s with
    | nil => cases m <;> rfl
    | cons c t =>
      cases m with
      | zero => simp at hm
      | succ m2 =>
        simp only [List.length_cons, Nat.succ_le_succ_iff] at hn hm
        cases hh : here (c :: t) with
        | some ak =>
          obtain ⟨a, k⟩ := ak
          show (match here (c :: t) with
            | some (a, k) => a :: reFindallF here n ((c :: t).drop (k + 1))
            | none => reFindallF here n t)
            = (match here (c :: t) with
            | some (a, k) => a :: reFindallF here m2 ((c :: t).drop (k + 1))
            | none => reFindallF here m2 t)
          simp only [hh]
          have hd : ((c :: t).drop (k + 1)).length ≤ t.length := by
            rw [List.drop_succ_cons, List.length_drop]
            omega
          rw [ih m2 ((c :: t).drop (k + 1)) (le_trans hd hn) (le_trans hd hm)]
        | none =>
          show (match here (c :: t) with
            | some (a, k) => a :: reFindallF here n ((c :: t).drop (k + 1))
            | none => reFindallF here n t)
            = (match here (c :: t) with
            | some (a, k) => a :: reFindallF here m2 ((c :: t).drop (k + 1))
            | none => reFindallF here m2 t)
          simp only [hh]
          exact ih m2 t hn hm

theorem reFindall_cons_some {α : Type} (here : List Char → Option (α × Nat))
    (c : Char) (t : List Char) (a : α) (k : Nat) (h : here (c :: t) = some (a, k)) :
    reFindall here (c :: t) = a :: reFindall here ((c :: t).drop (k + 1)) := by
  unfold reFindall
  show (match here (c :: t) with
      | some (a2, k2) => a2 :: reFindallF here t.length ((c :: t).drop (k2 + 1))
      | none => reFindallF here t.length t)
    = a :: reFindallF here ((c :: t).drop (k + 1)).length ((c :: t).drop (k + 1))
  simp only [h]
  have hd : ((c :: t).drop (k + 1)).length ≤ t.length := by
    rw [List.drop_succ_cons, List.length_drop]
    omega
  rw [reFindallF_congr here t.length ((c :: t).drop (k + 1)).length _ hd (le_refl _)]

theorem reFindall_cons_none {α : Type} (here : List Char → Option (α × Nat))
    (c : Char) (t : List Char) (h : here (c :: t) = none) :
    reFindall here (c :: t) = reFindall here t := by
  unfold reFindall
  show (match here (c :: t) with
      | some (a2, k2) => a2 :: reFindallF here t.length ((c :: t).drop (k2 + 1))
      | none => reFindallF here t.length t)
    = reFindallF here t.length t
  simp only [h]

/-- A line-feed can never open a `STAT` match. -/
theorem statHere_lf (t : List Char) : statHere ('\n' :: t) = none := by
  unfold statHere
  rw [if_neg]
  intro h
  injection h with h1
  exact absurd h1 (by decide)

theorem drop_len_succ_append (a b : List Char) (x : Char) :
    (a ++ x :: b).drop (a.length + 1) = b := by
  rw [List.drop_append_eq_append_drop, List.drop_eq_nil_of_le (Nat.le_succ _),
    show a.length + 1 - a.length = 1 from by omega]
  rfl

/-- The flat scan consumes a CRLF-framed line in one piece: its match if
the line has one, then the scan of the remaining text. -/
theorem statFindall_line (l rest : List Char) (hr : '\r' ∉ l) (hn : '\n' ∉ l) :
    statFindall (l ++ '\r' :: '\n' :: rest)
      = statFindall (l ++ ['\r']) ++ statFindall rest := by
  induction l with
  | nil =>
    have h1 : statHere ('\r' :: '\n' :: rest) = none := by
      have h := statHere_ext [] ('\n' :: rest) (by simp) (by simp) (Or.inr ⟨rest, rfl⟩)
      simpa using h
    have h2 : statHere ('\n' :: rest) = none := statHere_lf rest
    have h3 : statHere (['\r'] : List Char) = none := by
      have h := statHere_ext [] [] (by simp) (by simp) (Or.inl rfl)
      simpa using h
    simp only [List.nil_append]
    unfold statFindall
    rw [reFindall_cons_none _ _ _ h1]
    show reFindall statHere ('\n' :: rest) = _
    rw [reFindall_cons_none _ _ _ h2, reFindall_cons_none _ _ _ h3]
    rfl
  | cons c t ih =>
    have hrt : '\r' ∉ t := fun h => hr (List.mem_cons_of_mem _ h)
    have hnt : '\n' ∉ t := fun h => hn (List.mem_cons_of_mem _ h)
    have hext1 := statHere_ext (c :: t) ('\n' :: rest) hr hn (Or.inr ⟨rest, rfl⟩)
    have hext2 := statHere_ext (c :: t) [] hr hn (Or.inl rfl)
    cases hlc : statLineCore (c :: t) with
    | none =>
      rw [hlc] at hext1 hext2
      simp only [Option.map_none'] at hext1 hext2
      simp only [List.cons_append] at hext1 hext2 ⊢
      unfold statFindall at ih ⊢
      rw [reFindall_cons_none _ _ _ hext1, reFindall_cons_none _ _ _ hext2]
      exact ih hrt hnt
    | some p =>
      rw [hlc] at hext1 hext2
      simp only [Option.map_some'] at hext1 hext2
      simp only [List.cons_append] at hext1 hext2 ⊢
      unfold statFindall
      rw [reFindall_cons_some _ _ _ _ _ hext1, reFindall_cons_some _ _ _ _ _ hext2]
      have hd1 : (c :: (t ++ '\r' :: '\n' :: rest)).drop ((c :: t).length + 1)
          = '\n' :: rest := by
        rw [List.length_cons, List.drop_succ_cons]
        exact drop_len_succ_append t ('\n' :: rest) '\r'
      have hd2 : (c :: (t ++ ['\r'])).drop ((c :: t).length + 1) = [] := by
        rw [List.length_cons, List.drop_succ_cons]
        exact drop_len_succ_append t [] '\r'
      rw [hd1, hd2, reFindall_cons_none _ _ _ (statHere_lf rest)]
      rfl

/-- One CR-terminated line yields exactly its `lineMatch` pair (or
nothing). -/
theorem statFindall_single_line (l : List Char) (hr : '\r' ∉ l) (hn : '\n' ∉ l) :
    statFindall (l ++ ['\r'])
      = match lineMatch l with
        | some p => [(String.mk p.1, String.mk p.2)]
        | none => [] := by
  induction l with
  | nil =>
    have h3 : statHere (['\r'] : List Char) = none := by
      have h := statHere_ext [] [] (by simp) (by simp) (Or.inl rfl)
      simpa using h
    simp only [List.nil_append]
    unfold statFindall
    rw [reFindall_cons_none _ _ _ h3]
    rfl
  | cons c t ih =>
    have hrt : '\r' ∉ t := fun h => hr (List.mem_cons_of_mem _ h)
    have hnt : '\n' ∉ t := fun h => hn (List.mem_cons_of_mem _ h)
    have hext := statHere_ext (c :: t) [] hr hn (Or.inl rfl)
    have elm : lineMatch (c :: t)
        = match statLineCore (c :: t) with
          | some p => some p
          | none => lineMatch t := rfl
    cases hlc : statLineCore (c :: t) with
    | none =>
      rw [hlc] at hext
      simp only [Option.map_none'] at hext
      simp only [List.cons_append] at hext ⊢
      unfold statFindall at ih ⊢
      rw [reFindall_cons_none _ _ _ hext, elm, hlc]
      exact ih hrt hnt
    | some p =>
      rw [hlc] at hext
      simp only [Option.map_some'] at hext
      simp only [List.cons_append] at hext ⊢
      unfold statFindall
      rw [reFindall_cons_some _ _ _ _ _ hext]
      have hd2 : (c :: (t ++ ['\r'])).drop ((c :: t).length + 1) = [] := by
        rw [List.length_cons, List.drop_succ_cons]
        exact drop_len_succ_append t [] '\r'
      rw [hd2, elm, hlc]
      rfl

/-- The flat `findall` over CRLF-framed lines is the concatenation of the
per-line matches. -/
theorem statFindall_crlfJoin (ls : List (List Char))
    (hls : ∀ l ∈ ls, '\r' ∉ l ∧ '\n' ∉ l) :
    statFindall (crlfJoin ls)
      = ls.flatMap (fun l =>
          match lineMatch l with
          | some p => [(String.mk p.1, String.mk p.2)]
          | none => []) := by
  induction ls with
  | nil => rfl
  | cons l ls ih =>
    have hl := hls l (by simp)
    have hls2 : ∀ x ∈ ls, '\r' ∉ x ∧ '\n' ∉ x := fun x hx => hls x (by simp [hx])
    show statFindall (l ++ '\r' :: '\n' :: crlfJoin ls) = _
    rw [statFindall_line l (crlfJoin ls) hl.1 hl.2, List.flatMap_cons,
      statFindall_single_line l hl.1 hl.2, ih hls2]

/-- C5 (confirmed): for every protocol response framed as CRLF lines,
`stats()` returns the dict of exactly the (name, value) pairs that the
pattern `STAT <name> <number>` extracts linewise — each line contributes
its (leftmost) match, with the trailing line terminator outside the stored
value, and a line without a match contributes nothing. -/
theorem mc_stats_linewise (command : String → String) (ls : List (List Char))
    (hresp : (command "stats").data = crlfJoin ls)
    (hls : ∀ l ∈ ls, '\r' ∉ l ∧ '\n' ∉ l) :
    mc_stats command
      = dictOfStr (ls.flatMap (fun l =>
          match lineMatch l with
          | some p => [(String.mk p.1, String.mk p.2)]
          | none => [])) := by
  unfold mc_stats
  rw [hresp]
  exact congrArg dictOfStr (statFindall_crlfJoin ls hls)

/-- Witness for C5 at a concrete three-line response: one `STAT` line, one
junk line, the `END` sentinel; the resulting dict holds exactly the
matched pair. -/
theorem mc_stats_linewise_witness :
    (cmdStats "stats").data = crlfJoin lsEx
    ∧ mc_stats cmdStats
        = dictOfStr (lsEx.flatMap (fun l =>
            match lineMatch l with
            | some p => [(String.mk p.1, String.mk p.2)]
            | none => []))
    ∧ mc_stats cmdStats = [("curr_items", "10")] := by
  refine ⟨by decide, mc_stats_linewise cmdStats lsEx (by decide) (by decide), by decide⟩

end MC
